import Mathlib

/-!
Verification of the encz repository's progress-parsing core.

Shallow embedding conventions:
* Go `float64` values are modelled as exact rationals (`Rat`); the decimal
  arithmetic of the progress math is exact at every value the program
  manipulates, and no claim here hinges on binary floating-point rounding.
* Go `int64` / `time.Duration` values are modelled as `Int` (nanoseconds for
  durations), with two's-complement wrap-around made explicit where the Go
  code can overflow (`wrap64`).
* Byte streams and strings are modelled as `List Char` / `String`.
* Wall-clock time (used only for the ETA field of variant B) is modelled as
  an oracle `clock : Nat -> Int` giving the monotonic-clock reading (in
  nanoseconds) at the processing of the i-th scanned line.
-/

set_option maxRecDepth 8000

/-- Model of Go `math.Round`: round half away from zero to an integer. -/
def goRound (q : ℚ) : ℚ :=
  if 0 ≤ q then (⌊q + 1/2⌋ : ℤ) else (-⌊-q + 1/2⌋ : ℤ)

namespace handbrake

/-- Source: src/handbrake/handbrake.go, `round`.
`factor := math.Pow(10, float64(precision)); return math.Round(val*factor) / factor`. -/
def round (val : ℚ) (precision : ℤ) : ℚ :=
  goRound (val * (10 : ℚ) ^ precision) / (10 : ℚ) ^ precision

end handbrake

namespace ffmpeg

/-- Source: src/version.go (package ffmpeg), `round`.
`if precision < 0 { return n }; pow := math.Pow(10, float64(precision)); return math.Round(n*pow) / pow`. -/
def round (n : ℚ) (precision : ℤ) : ℚ :=
  if precision < 0 then n
  else goRound (n * (10 : ℚ) ^ precision) / (10 : ℚ) ^ precision

end ffmpeg

/-- Source: shared shape of `EncodeProgress` in both backend packages
(fields Percent, FPSAvg, ETA, CurrentSize; ETA and CurrentSize are Go
`time.Duration` / `int64`, modelled as `Int`). -/
structure EncodeProgress where
  Percent : ℚ
  FPSAvg : ℚ
  ETA : ℤ
  CurrentSize : ℤ
deriving DecidableEq, Repr

instance : Inhabited EncodeProgress := ⟨⟨0, 0, 0, 0⟩⟩

namespace handbrake

/-- Source: src/handbrake/handbrake.go, `EncodedMB`. -/
def EncodedMB (e : EncodeProgress) : ℚ := (e.CurrentSize : ℚ) / 1048576

/-- Source: src/handbrake/handbrake.go, `EstimatedMB`. -/
def EstimatedMB (e : EncodeProgress) : ℚ :=
  if e.Percent = 0 then 0
  else round (EncodedMB e / (e.Percent / 100)) 1

end handbrake

namespace ffmpeg

/-- Source: src/version.go (package ffmpeg), `EncodedMB`. -/
def EncodedMB (e : EncodeProgress) : ℚ := (e.CurrentSize : ℚ) / 1048576

/-- Source: src/version.go (package ffmpeg), `EstimatedMB`. -/
def EstimatedMB (e : EncodeProgress) : ℚ :=
  if e.Percent = 0 then 0
  else round (EncodedMB e / (e.Percent / 100)) 1

end ffmpeg

/-- Spec-side definition, following the words of the spec (section 3):
"estimated-total-size-in-MB (encoded / (percent/100), zero if percent is
zero, rounded to 1 decimal)" with "encoded-size-in-MB (currentSize /
1,048,576)"; rounding to 1 decimal is half-away-from-zero on the tenths. -/
def specEstimatedMB (e : EncodeProgress) : ℚ :=
  if e.Percent = 0 then 0
  else goRound ((e.CurrentSize : ℚ) / 1048576 / (e.Percent / 100) * 10) / 10

/-- The two line-terminator bytes `iterLines` recognizes. -/
def isTerm (c : Char) : Bool := c = '\r' || c = '\n'

/-- Source: src/handbrake/handbrake.go, `iterLines`: byte-at-a-time scan,
accumulating a current line, yielding it (when non-empty) at each '\r' or
'\n', and yielding any non-empty remainder at end of stream.  The byte
stream is modelled as the list of bytes the reader delivers before EOF. -/
def iterLinesAux : List Char → List Char → List String
  | cur, [] => if cur.isEmpty then [] else [String.mk cur]
  | cur, c :: rest =>
    if isTerm c then
      if cur.isEmpty then iterLinesAux [] rest
      else String.mk cur :: iterLinesAux [] rest
    else iterLinesAux (cur ++ [c]) rest

def iterLines (bytes : List Char) : List String := iterLinesAux [] bytes

/-- Spec-side helper: split a byte sequence at every terminator character,
keeping empty segments; returns the first segment and the remaining ones. -/
def splitRawP : List Char → List Char × List (List Char)
  | [] => ([], [])
  | c :: rest =>
    let p := splitRawP rest
    if isTerm c then ([], p.1 :: p.2) else (c :: p.1, p.2)

/-- Modelled from the spec: "splitting the stream's bytes on every '\r' and
'\n' character and discarding empty segments". -/
def specTokens (bytes : List Char) : List String :=
  ((((splitRawP bytes).1 :: (splitRawP bytes).2).filter
    (fun l => !l.isEmpty)).map String.mk)

/-- Numeric value of a decimal digit character. -/
def digitVal (c : Char) : ℕ := c.toNat - '0'.toNat

/-- Value of a digit string, most significant first. -/
def natOfDigits (l : List Char) : ℕ := l.foldl (fun acc c => acc * 10 + digitVal c) 0

/-- Truncation of a rational toward zero (Go float-to-integer conversion). -/
def ratTrunc (q : ℚ) : ℤ := q.num.tdiv q.den

/-- Exponent-suffix part of the model of Go `strconv.ParseFloat`. -/
def parseExpPart (mant : ℚ) (s : List Char) : Option ℚ :=
  match s with
  | [] => some mant
  | e :: r =>
    if e = 'e' || e = 'E' then
      let sgn : ℤ := if r.head? = some '-' then -1 else 1
      let r2 := if r.head? = some '+' || r.head? = some '-' then r.tail else r
      if (r2.takeWhile Char.isDigit).isEmpty || !(r2.dropWhile Char.isDigit).isEmpty then none
      else some (mant * (10 : ℚ) ^ (sgn * (natOfDigits (r2.takeWhile Char.isDigit) : ℤ)))
    else none

/-- Unsigned decimal mantissa (with optional fraction and exponent). -/
def parseUnsignedFloat (s : List Char) : Option ℚ :=
  let ip := s.takeWhile Char.isDigit
  let r1 := s.dropWhile Char.isDigit
  match r1 with
  | '.' :: r2 =>
    let fp := r2.takeWhile Char.isDigit
    let r3 := r2.dropWhile Char.isDigit
    if ip.isEmpty && fp.isEmpty then none
    else
      parseExpPart ((natOfDigits ip : ℚ) + (natOfDigits fp : ℚ) / (10 : ℚ) ^ fp.length) r3
  | _ =>
    if ip.isEmpty then none
    else parseExpPart (natOfDigits ip : ℚ) r1

/-- Model of Go `strconv.ParseFloat(s, 64)` on the decimal syntax, with the
value kept exact as a rational (the embedding's float model).  The special
forms the progress streams never produce (hex mantissas, "inf"/"nan",
digit-group underscores) are modelled as parse failures. -/
def goParseFloat (s : List Char) : Option ℚ :=
  if s.head? = some '+' then parseUnsignedFloat s.tail
  else if s.head? = some '-' then (parseUnsignedFloat s.tail).map Neg.neg
  else parseUnsignedFloat s

/-- Model of Go `strconv.ParseInt(s, 10, 64)`: optional sign, at least one
digit, nothing else, and the value must fit in a signed 64-bit integer. -/
def goParseInt64 (s : List Char) : Option ℤ :=
  let p : ℤ × List Char :=
    if s.head? = some '+' then (1, s.tail)
    else if s.head? = some '-' then (-1, s.tail)
    else (1, s)
  if p.2.isEmpty || !p.2.all Char.isDigit then none
  else
    let v : ℤ := p.1 * (natOfDigits p.2 : ℤ)
    if v < -(2 ^ 63) || 2 ^ 63 - 1 < v then none else some v

/-- Unit table of Go `time.ParseDuration` (nanoseconds per unit). -/
def unitNanos (u : List Char) : Option ℤ :=
  if u = "ns".data then some 1
  else if u = "us".data then some 1000
  else if u = "µs".data then some 1000
  else if u = "μs".data then some 1000
  else if u = "ms".data then some 1000000
  else if u = "s".data then some 1000000000
  else if u = "m".data then some 60000000000
  else if u = "h".data then some 3600000000000
  else none

/-- Segment loop of Go `time.ParseDuration`: repeated number-then-unit
segments, each contributing intPart*unit nanoseconds (computed exactly in
int64, as Go does) plus a fractional contribution `int64(f*(unit/scale))`
(Go computes it in float64; modelled as exact rational truncation; the
int64-overflow errors for astronomically long durations are not modelled).
`fuel` bounds the recursion; each segment consumes at least one character,
so `length + 1` fuel is always enough. -/
def parseDurSegs : ℕ → List Char → Option ℤ
  | 0, _ => none
  | _ + 1, [] => some 0
  | fuel + 1, s =>
    let ip := s.takeWhile Char.isDigit
    let r1 := s.dropWhile Char.isDigit
    let vr : Option (ℤ × List Char × List Char) :=
      match r1 with
      | '.' :: r2 =>
        let fp := r2.takeWhile Char.isDigit
        let r3 := r2.dropWhile Char.isDigit
        if ip.isEmpty && fp.isEmpty then none
        else some ((natOfDigits ip : ℤ), fp, r3)
      | _ => if ip.isEmpty then none else some ((natOfDigits ip : ℤ), [], r1)
    match vr with
    | none => none
    | some (v, fp, r) =>
      let u := r.takeWhile (fun c => !(c.isDigit || c = '.'))
      let rest := r.dropWhile (fun c => !(c.isDigit || c = '.'))
      match unitNanos u with
      | none => none
      | some un =>
        let frac : ℤ :=
          if fp.isEmpty then 0
          else ratTrunc ((natOfDigits fp : ℚ) * (un : ℚ) / (10 : ℚ) ^ fp.length)
        (parseDurSegs fuel rest).map (fun acc => v * un + frac + acc)

/-- Model of Go `time.ParseDuration`: optional sign, the special bare "0",
else one or more number-unit segments; result in nanoseconds. -/
def goParseDuration (s : List Char) : Option ℤ :=
  let p : Bool × List Char :=
    if s.head? = some '-' then (true, s.tail)
    else if s.head? = some '+' then (false, s.tail)
    else (false, s)
  if p.2 = ['0'] then some 0
  else if p.2.isEmpty then none
  else (parseDurSegs (p.2.length + 1) p.2).map (fun v => if p.1 then -v else v)

/-- Go `unicode.IsSpace` on the characters `strings.TrimSpace` strips
(ASCII whitespace plus NEL and NBSP). -/
def isGoSpace (c : Char) : Bool :=
  c = ' ' || c = '\t' || c = '\n' || c.toNat = 11 || c.toNat = 12 || c = '\r' ||
  c.toNat = 133 || c.toNat = 160

/-- Model of Go `strings.TrimSpace`. -/
def goTrimSpace (s : List Char) : List Char :=
  ((s.dropWhile isGoSpace).reverse.dropWhile isGoSpace).reverse

/-- Boolean string-starts-with on character lists (pattern first). -/
def leadsWith : List Char → List Char → Bool
  | [], _ => true
  | _ :: _, [] => false
  | p :: ps, c :: cs => p = c && leadsWith ps cs

/-- RE2's Perl class `\s`: tab, newline, form feed, carriage return, space. -/
def isReSpace (c : Char) : Bool :=
  c = '\t' || c = '\n' || c.toNat = 12 || c = '\r' || c = ' '

/-- The regex character class `[\d.]`. -/
def isDigitDot (c : Char) : Bool := c.isDigit || c = '.'

/-- Literal-prefix step of the matcher. -/
def expectLit (lit s : List Char) : Option (List Char) :=
  if leadsWith lit s then some (s.drop lit.length) else none

/-- Greedy one-or-more character-class step of the matcher (maximal munch). -/
def munch1 (p : Char → Bool) (s : List Char) : Option (List Char × List Char) :=
  if (s.takeWhile p).isEmpty then none else some (s.takeWhile p, s.dropWhile p)

/-- The optional group of the `parseProgress` regex:
`(?:\s*\([^,]+,\s*avg\s+([\d.]+)\s*fps,\s*ETA\s+([^)]+)\))?`.
Every quantified subpattern is followed by a character disjoint from its
class, so the greedy leftmost-first semantics of Go's regexp reduce to
deterministic maximal munch. -/
def matchOpt (s : List Char) : Option (List Char × List Char) := do
  let s := s.dropWhile isReSpace
  let s ← expectLit "(".data s
  let (_, s) ← munch1 (fun c => c ≠ ',') s
  let s ← expectLit ",".data s
  let s := s.dropWhile isReSpace
  let s ← expectLit "avg".data s
  let (_, s) ← munch1 isReSpace s
  let (fps, s) ← munch1 isDigitDot s
  let s := s.dropWhile isReSpace
  let s ← expectLit "fps,".data s
  let s := s.dropWhile isReSpace
  let s ← expectLit "ETA".data s
  let (_, s) ← munch1 isReSpace s
  let (eta, s) ← munch1 (fun c => c ≠ ')') s
  let _ ← expectLit ")".data s
  pure (fps, eta)

/-- Anchored match of the `parseProgress` regex
`Encoding: task \d+ of \d+, ([\d.]+) %` followed by the optional group; on
success returns the three captures (absent optional captures as `[]`). -/
def matchAt (s : List Char) : Option (List Char × List Char × List Char) := do
  let s ← expectLit "Encoding: task ".data s
  let (_, s) ← munch1 Char.isDigit s
  let s ← expectLit " of ".data s
  let (_, s) ← munch1 Char.isDigit s
  let s ← expectLit ", ".data s
  let (pct, s) ← munch1 isDigitDot s
  let s ← expectLit " %".data s
  match matchOpt s with
  | some r => pure (pct, r.1, r.2)
  | none => pure (pct, [], [])

/-- Leftmost match: `regexp.FindStringSubmatch` tries successive start
positions and returns the first full match. -/
def findMatch : List Char → Option (List Char × List Char × List Char)
  | [] => none
  | c :: rest =>
    match matchAt (c :: rest) with
    | some r => some r
    | none => findMatch rest

/-- Source: src/handbrake/handbrake.go, `parseProgress`.  The filesystem
`os.Stat(outputPath)` is modelled by `statSize`: `some n` for a successful
stat with size `n`, `none` for a stat error (size stays 0). -/
def parseProgress (line : String) (statSize : Option ℤ) : EncodeProgress × Bool :=
  match findMatch line.data with
  | none => (default, false)
  | some (pctS, fpsS, etaS) =>
    let percent := (goParseFloat pctS).getD 0
    let rest :=
      if fpsS.isEmpty then ((0 : ℚ), (0 : ℤ))
      else ((goParseFloat fpsS).getD 0, (goParseDuration (goTrimSpace etaS)).getD 0)
    ({ Percent := goRound (percent * 10) / 10, FPSAvg := rest.1, ETA := rest.2,
       CurrentSize := statSize.getD 0 }, true)

/-- Two's-complement wrap of an integer into the int64 range (Go's
multiplication `ms * 1000` on `int64` can overflow). -/
def wrap64 (n : ℤ) : ℤ := (n + 2 ^ 63) % 2 ^ 64 - 2 ^ 63

/-- Go `Duration.Truncate(time.Second)`: round toward zero to a whole
second (the argument and result are nanosecond counts). -/
def truncSec (d : ℤ) : ℤ := d.tdiv 1000000000 * 1000000000

/-- The mutable loop state of `iterProgress`: the running `EncodeProgress`,
the armed wall-clock start, and whether `progress=continue` was seen. -/
structure BState where
  cur : EncodeProgress
  startTime : ℤ
  progressStarted : Bool
deriving DecidableEq, Repr

instance : Inhabited BState := ⟨⟨default, 0, false⟩⟩

/-- Loop body of `iterProgress`, part 1: the `progress=continue` branch, which
arms the wall-clock start exactly once. -/
def stepContinue (now : ℤ) (line : List Char) (st : BState) : BState :=
  if leadsWith "progress=continue".data line && !st.progressStarted then
    { st with startTime := now, progressStarted := true }
  else st

/-- Loop body of `iterProgress`, part 2: the `fps=` branch. -/
def stepFps (line : List Char) (st : BState) : BState :=
  if leadsWith "fps=".data line then
    match goParseFloat (line.drop 4) with
    | some fps => { st with cur := { st.cur with FPSAvg := fps } }
    | none => st
  else st

/-- Loop body of `iterProgress`, part 3: the `total_size=` branch. -/
def stepSize (line : List Char) (st : BState) : BState :=
  if leadsWith "total_size=".data line then
    match goParseInt64 (line.drop 11) with
    | some size => { st with cur := { st.cur with CurrentSize := size } }
    | none => st
  else st

/-- Loop body of `iterProgress`, part 4: the `out_time_ms=` branch, which
computes the clamped rounded percent, possibly an ETA (when progress has
started and 0 < percent < 100), and yields the snapshot. -/
def stepOut (totalDuration now : ℤ) (line : List Char) (st : BState) :
    BState × Option EncodeProgress :=
  if leadsWith "out_time_ms=".data line then
    match goParseInt64 (line.drop 12) with
    | some ms =>
      if 0 < totalDuration then
        let percent :=
          ffmpeg.round (min 100 ((wrap64 (ms * 1000) : ℚ) / (totalDuration : ℚ) * 100)) 2
        let cur1 := { st.cur with Percent := percent }
        let cur2 :=
          if st.progressStarted && decide (0 < percent) && decide (percent < 100) then
            { cur1 with
              ETA := truncSec (ratTrunc (((now - st.startTime : ℤ) : ℚ) * 100 / percent)
                - (now - st.startTime)) }
          else cur1
        ({ st with cur := cur2 }, some cur2)
      else (st, none)
    | none => (st, none)
  else (st, none)

/-- Source: src/version.go (package ffmpeg), the loop body of
`iterProgress` for one scanned line (trim, then the four sequential
prefix branches; the prefixes are mutually exclusive so sequencing the
branches is the Go loop verbatim).  `now` is the wall-clock reading (ns)
when this line is processed; `time.Now()` arms `startTime`, `time.Since`
is `now - startTime`.  Returns the new state and the emitted snapshot, if
any. -/
def bStep (totalDuration : ℤ) (now : ℤ) (st : BState) (raw : String) :
    BState × Option EncodeProgress :=
  let line := goTrimSpace raw.data
  stepOut totalDuration now line (stepSize line (stepFps line (stepContinue now line st)))

/-- Source: src/version.go (package ffmpeg), `iterProgress`, folded over
the lines produced by the `bufio.Scanner`; `clock i` is the wall-clock
reading when the i-th line is processed. -/
def iterProgressAux (total : ℤ) (clock : ℕ → ℤ) :
    ℕ → BState → List String → List EncodeProgress
  | _, _, [] => []
  | i, st, l :: ls =>
    match bStep total (clock i) st l with
    | (st2, some p) => p :: iterProgressAux total clock (i + 1) st2 ls
    | (st2, none) => iterProgressAux total clock (i + 1) st2 ls

def iterProgress (lines : List String) (totalDuration : ℤ) (clock : ℕ → ℤ) :
    List EncodeProgress :=
  iterProgressAux totalDuration clock 0 default lines

/-- The out_time value of a trimmed line, exactly as `iterProgress`'s
`out_time_ms=` branch parses it. -/
def outValL (line : List Char) : Option ℤ :=
  if leadsWith "out_time_ms=".data line then goParseInt64 (line.drop 12) else none

/-- The out_time value of a raw line. -/
def outTimeVal (raw : String) : Option ℤ := outValL (goTrimSpace raw.data)

/-- Modelled from the spec/claim: the percent of a snapshot,
`min(100, out_time/total * 100)` rounded to 2 decimals, where the
`out_time_ms` field value is a microsecond count (1000·v nanoseconds). -/
def specPct (total : ℤ) (v : ℤ) : ℚ :=
  goRound (min 100 ((1000 * v : ℚ) / (total : ℤ) * 100) * 100) / 100

/-- The latest speed seen so far after a trimmed line. -/
def specFpsL (fps : ℚ) (line : List Char) : ℚ :=
  if leadsWith "fps=".data line then (goParseFloat (line.drop 4)).getD fps else fps

/-- Modelled from the spec: the latest speed seen so far after this line. -/
def specFps (fps : ℚ) (raw : String) : ℚ := specFpsL fps (goTrimSpace raw.data)

/-- The latest size seen so far after a trimmed line. -/
def specSizeL (size : ℤ) (line : List Char) : ℤ :=
  if leadsWith "total_size=".data line then (goParseInt64 (line.drop 11)).getD size else size

/-- Modelled from the spec: the latest size seen so far after this line. -/
def specSize (size : ℤ) (raw : String) : ℤ := specSizeL size (goTrimSpace raw.data)

/-- Modelled from the spec/claim: one (percent, speed, size) snapshot per
line whose out_time value parses, with the latest speed/size seen so far. -/
def specSnapshotsAux (total : ℤ) : ℚ → ℤ → List String → List (ℚ × ℚ × ℤ)
  | _, _, [] => []
  | fps, size, l :: ls =>
    match outTimeVal l with
    | some v => (specPct total v, specFps fps l, specSize size l) ::
        specSnapshotsAux total (specFps fps l) (specSize size l) ls
    | none => specSnapshotsAux total (specFps fps l) (specSize size l) ls

def specSnapshots (total : ℤ) (lines : List String) : List (ℚ × ℚ × ℤ) :=
  specSnapshotsAux total 0 0 lines

/-- No out_time value in the stream overflows int64 when converted to
nanoseconds. -/
def noOverflowB (lines : List String) : Bool :=
  lines.all fun l =>
    match outTimeVal l with
    | some v => decide (-(2 ^ 63) ≤ 1000 * v) && decide (1000 * v < 2 ^ 63)
    | none => true

/-- Every out_time value in the stream is a nonnegative microsecond count
that stays in int64 range when converted to nanoseconds. -/
def outTimesOkB (lines : List String) : Bool :=
  lines.all fun l =>
    match outTimeVal l with
    | some v => decide (0 ≤ v) && decide (1000 * v < 2 ^ 63)
    | none => true

/-- The (percent, speed, size) projection of a snapshot. -/
def proj (p : EncodeProgress) : ℚ × ℚ × ℤ := (p.Percent, p.FPSAvg, p.CurrentSize)

/-- The raw percent value the variant-A regex reports for a line: the first
capture parsed as a float (0 on parse failure), if the line matches. -/
def reportedPercent (line : String) : Option ℚ :=
  (findMatch line.data).map (fun r => (goParseFloat r.1).getD 0)

/-- Digit character for a value below 10. -/
def digitChar (n : ℕ) : Char := Char.ofNat (48 + n)

/-- Fuel-driven decimal-digit accumulation (least significant digit first,
prepended, so the result is most-significant-first). -/
def natCharsAux : ℕ → ℕ → List Char → List Char
  | 0, _, acc => acc
  | fuel + 1, n, acc =>
    let acc2 := digitChar (n % 10) :: acc
    if n / 10 = 0 then acc2 else natCharsAux fuel (n / 10) acc2

/-- Decimal digits of a natural number. -/
def natChars (n : ℕ) : List Char := natCharsAux (n + 1) n []

/-- Model of Go `strconv.Itoa` / `fmt.Sprintf("%d", ·)` on int64 values. -/
def itoa (i : ℤ) : String :=
  if i < 0 then String.mk ('-' :: natChars (-i).toNat) else String.mk (natChars i.toNat)

/-- Round half to even to an integer (the rounding of Go's fmt `%.Nf`
formatting of an exactly representable value). -/
def roundEven (q : ℚ) : ℤ :=
  if q - ⌊q⌋ < 1/2 then ⌊q⌋
  else if 1/2 < q - ⌊q⌋ then ⌊q⌋ + 1
  else if ⌊q⌋ % 2 = 0 then ⌊q⌋ else ⌊q⌋ + 1

/-- Model of Go `fmt.Sprintf("%.0f", q)` (Go's "-0" for small negative
values is not modelled; the quality factor it formats is a plain number). -/
def fmtNoDec (q : ℚ) : String := itoa (roundEven q)

/-- Model of Go `fmt.Sprintf("%0.1f", q)`: one decimal digit. -/
def fmtFixed1 (q : ℚ) : String :=
  (if roundEven (q * 10) < 0 then "-" else "") ++
    String.mk (natChars ((roundEven (q * 10)).natAbs / 10)) ++ "." ++
    String.mk (natChars ((roundEven (q * 10)).natAbs % 10))

/-- Source: handbrake.Encode's `fmt.Sprintf("duration:%0.1f", t.Seconds())`. -/
def durStr (t : ℤ) : String := "duration:" ++ fmtFixed1 ((t : ℚ) / 1000000000)

/-- Go `int(d.Seconds())`: the float64 second count truncated toward zero. -/
def secondsInt (t : ℤ) : ℤ := ratTrunc ((t : ℚ) / 1000000000)

/-- Model of Go `filepath.Base` for slash-separated paths. -/
def goBase (p : String) : String :=
  if p.data = [] then "."
  else
    let cs := (p.data.reverse.dropWhile (fun c => c = '/')).reverse
    if cs = [] then "/"
    else String.mk ((cs.reverse.takeWhile (fun c => c ≠ '/')).reverse)

/-- Model of Go `filepath.Ext`: the suffix starting at the final dot of the
final path element, or "" when that element has no dot. -/
def goExt (p : String) : String :=
  let revLast := p.data.reverse.takeWhile (fun c => c ≠ '/')
  if revLast.contains '.' then
    String.mk (((revLast.takeWhile (fun c => c ≠ '.')) ++ ['.']).reverse)
  else ""

/-- Model of Go `strings.TrimSuffix`. -/
def goTrimSuffix (s suf : String) : String :=
  if leadsWith suf.data.reverse s.data.reverse then
    String.mk ((s.data.reverse.drop suf.data.length).reverse)
  else s

/-- The `-metadata` value ffmpeg.Encode builds:
`title=` plus the input's base name with its extension trimmed. -/
def titleArg (inputPath : String) : String :=
  "title=" ++ goTrimSuffix (goBase inputPath) (goExt inputPath)

/-- The ffmpeg scale filter when both dimensions are given. -/
def scaleWH (w h : ℤ) : String :=
  "scale=" ++ itoa w ++ ":" ++ itoa h ++ ":force_original_aspect_ratio=decrease"

/-- The ffmpeg scale filter when only the width is given. -/
def scaleW (w : ℤ) : String := "scale=" ++ itoa w ++ ":-2"

/-- The ffmpeg scale filter when only the height is given. -/
def scaleH (h : ℤ) : String := "scale=-2:" ++ itoa h

namespace handbrake

/-- Source: src/handbrake/handbrake.go, `EncodeParams` (times as ns). -/
structure EncodeParams where
  InputPath : String
  OutputPath : String
  Quality : ℚ
  Is10Bit : Bool
  FromTime : ℤ
  Duration : ℤ
  Denoise : Bool
  Width : ℤ
  Height : ℤ
  ExtraArgs : List String

/-- Source: src/handbrake/handbrake.go, `Encode`: the assembled
HandbrakeCLI argument vector (the part of Encode before the subprocess is
started). -/
def encodeArgs (p : EncodeParams) : List String :=
  let encoder := if p.Is10Bit then "vt_h265_10bit" else "vt_h265"
  let args := ["HandbrakeCLI", "--format", "av_mp4", "--input", p.InputPath,
    "--output", p.OutputPath, "--optimize", "--encoder", encoder,
    "--quality", fmtNoDec p.Quality, "--vfr", "--aencoder", "ac3",
    "--ab", "160", "--non-anamorphic", "--verbose", "1"]
  let args := if 0 < p.FromTime then args ++ ["--start-at", durStr p.FromTime] else args
  let args := if 0 < p.Duration then args ++ ["--stop-at", durStr p.Duration] else args
  let args := if p.Denoise then args ++ ["--hqdn3d", "light"] else args
  let args :=
    if 0 < p.Width ∨ 0 < p.Height then
      if 0 < p.Width ∧ 0 < p.Height then
        args ++ ["--width", itoa p.Width, "--height", itoa p.Height]
      else if 0 < p.Width then args ++ ["--width", itoa p.Width]
      else args ++ ["--height", itoa p.Height]
    else args
  args ++ p.ExtraArgs

end handbrake

/-- Source: src/version.go, ffmpeg.Encode's 10-bit fixup: replace the first
"main" that directly follows "-profile:v" with "main10". -/
def replaceMain10 : List String → List String
  | x :: y :: rest =>
    if y = "main" ∧ x = "-profile:v" then x :: "main10" :: rest
    else x :: replaceMain10 (y :: rest)
  | l => l

/-- Source: src/version.go, ffmpeg.Encode's flag splicing: insert the pair
`tok val` immediately before every "-i". -/
def insertBeforeI (tok val : String) : List String → List String
  | [] => []
  | a :: rest =>
    if a = "-i" then tok :: val :: a :: insertBeforeI tok val rest
    else a :: insertBeforeI tok val rest

namespace ffmpeg

/-- Source: src/version.go (package ffmpeg), `EncodeParams` (times as ns). -/
structure EncodeParams where
  InputPath : String
  OutputPath : String
  Quality : ℚ
  Is10Bit : Bool
  FromTime : ℤ
  Duration : ℤ
  Width : ℤ
  Height : ℤ
  ExtraArgs : List String

/-- Source: src/version.go (package ffmpeg), `Encode`: the assembled ffmpeg
argument vector (the part of Encode before the subprocess is started; the
probe taken when Duration is 0 only supplies the total duration and does
not change the arguments). -/
def encodeArgs (p : EncodeParams) : List String :=
  let args := ["ffmpeg", "-y", "-progress", "pipe:1", "-stats_period", "3",
    "-i", p.InputPath, "-c:v", "hevc_videotoolbox",
    "-q:v", fmtNoDec p.Quality, "-profile:v", "main",
    "-map_metadata", "0", "-metadata", titleArg p.InputPath]
  let args :=
    if 0 < p.Width ∨ 0 < p.Height then
      args ++ ["-vf",
        if 0 < p.Width ∧ 0 < p.Height then scaleWH p.Width p.Height
        else if 0 < p.Width then scaleW p.Width
        else scaleH p.Height]
    else args
  let args := args ++ [p.OutputPath]
  let args := if p.Is10Bit then replaceMain10 args else args
  let args :=
    if 0 < p.FromTime then insertBeforeI "-ss" (itoa (secondsInt p.FromTime)) args else args
  let args :=
    if 0 < p.Duration then insertBeforeI "-t" (itoa (secondsInt p.Duration)) args else args
  args ++ p.ExtraArgs

end ffmpeg

/-- The strings Go prints for integers: digits with an optional sign. -/
def numLike (s : String) : Bool := s.data.all (fun c => c.isDigit || c = '-')

/-- The scaling segment of the HandBrake argument vector. -/
def hbScale (p : handbrake.EncodeParams) : List String :=
  if 0 < p.Width ∨ 0 < p.Height then
    if 0 < p.Width ∧ 0 < p.Height then ["--width", itoa p.Width, "--height", itoa p.Height]
    else if 0 < p.Width then ["--width", itoa p.Width]
    else ["--height", itoa p.Height]
  else []

/-- The base segment of the ffmpeg argument vector. -/
def ffBase (p : ffmpeg.EncodeParams) : List String :=
  ["ffmpeg", "-y", "-progress", "pipe:1", "-stats_period", "3",
   "-i", p.InputPath, "-c:v", "hevc_videotoolbox",
   "-q:v", fmtNoDec p.Quality, "-profile:v", "main",
   "-map_metadata", "0", "-metadata", titleArg p.InputPath]

/-- The scaling segment of the ffmpeg argument vector. -/
def ffScale (p : ffmpeg.EncodeParams) : List String :=
  if 0 < p.Width ∨ 0 < p.Height then
    ["-vf", if 0 < p.Width ∧ 0 < p.Height then scaleWH p.Width p.Height
            else if 0 < p.Width then scaleW p.Width
            else scaleH p.Height]
  else []

/-- The ffmpeg vector before the 10-bit fixup and time splicing. -/
def ffPre (p : ffmpeg.EncodeParams) : List String :=
  ffBase p ++ ffScale p ++ [p.OutputPath]

def ffAfter10 (p : ffmpeg.EncodeParams) : List String :=
  if p.Is10Bit then replaceMain10 (ffPre p) else ffPre p

def ffAfterSS (p : ffmpeg.EncodeParams) : List String :=
  if 0 < p.FromTime then insertBeforeI "-ss" (itoa (secondsInt p.FromTime)) (ffAfter10 p)
  else ffAfter10 p

def ffAfterT (p : ffmpeg.EncodeParams) : List String :=
  if 0 < p.Duration then insertBeforeI "-t" (itoa (secondsInt p.Duration)) (ffAfterSS p)
  else ffAfterSS p

/-- Rounding an integer with `goRound` gives that integer. -/
theorem goRound_intCast (k : ℤ) : goRound (k : ℚ) = k := by
  unfold goRound
  rcases le_or_lt 0 (k : ℚ) with h | h
  · rw [if_pos h, Int.floor_int_add]
    norm_num
  · rw [if_neg (not_le.mpr h)]
    rw [show (-(k : ℚ) + 1/2) = ((-k : ℤ) : ℚ) + 1/2 by push_cast; ring, Int.floor_int_add]
    norm_num

/-- The function `goRound` always produces (the cast of) an integer. -/
theorem goRound_is_int (q : ℚ) : ∃ k : ℤ, goRound q = (k : ℚ) := by
  unfold goRound
  split
  · exact ⟨_, rfl⟩
  · exact ⟨_, rfl⟩

/-- The function `goRound` is idempotent. -/
theorem goRound_idem (q : ℚ) : goRound (goRound q) = goRound q := by
  obtain ⟨k, hk⟩ := goRound_is_int q
  rw [hk, goRound_intCast]

theorem handbrake_round_idem (v : ℚ) (N : ℤ) :
    handbrake.round (handbrake.round v N) N = handbrake.round v N := by
  unfold handbrake.round
  have hf : (10 : ℚ) ^ N ≠ 0 := zpow_ne_zero N (by norm_num)
  rw [div_mul_cancel₀ _ hf, goRound_idem]

/-- C9: the decimal rounding helper is idempotent, for both backends'
`round` functions, at every value and every integer precision. -/
theorem C9_round_idempotent (v : ℚ) (N : ℤ) :
    handbrake.round (handbrake.round v N) N = handbrake.round v N ∧
    ffmpeg.round (ffmpeg.round v N) N = ffmpeg.round v N := by
  refine ⟨handbrake_round_idem v N, ?_⟩
  unfold ffmpeg.round
  split
  · rfl
  · have hf : (10 : ℚ) ^ N ≠ 0 := zpow_ne_zero N (by norm_num)
    rw [div_mul_cancel₀ _ hf, goRound_idem]

/-- C10 (counterexample): the two rounding helpers differ at negative
precision: at value 15 and precision -1, handbrake's `round` gives 20
while ffmpeg's `round` returns the value unchanged (15). -/
theorem C10_counterexample :
    handbrake.round 15 (-1) = 20 ∧ ffmpeg.round 15 (-1) = 15 ∧
    handbrake.round 15 (-1) ≠ ffmpeg.round 15 (-1) := by
  have h1 : handbrake.round 15 (-1) = 20 := by
    unfold handbrake.round goRound
    norm_num
  have h2 : ffmpeg.round 15 (-1) = 15 := by
    unfold ffmpeg.round
    norm_num
  exact ⟨h1, h2, by rw [h1, h2]; norm_num⟩

/-- C10 (amended): the two rounding helpers agree at every value and every
nonnegative precision (they differ only for negative precision, where
ffmpeg's returns its input unchanged). -/
theorem C10_round_agree (v : ℚ) (N : ℤ) (h : 0 ≤ N) :
    handbrake.round v N = ffmpeg.round v N := by
  unfold handbrake.round ffmpeg.round
  rw [if_neg (not_lt.mpr h)]

theorem C10_round_agree_witness :
    (0 : ℤ) ≤ 1 ∧ handbrake.round (3/2) 1 = ffmpeg.round (3/2) 1 :=
  ⟨by norm_num, C10_round_agree (3/2) 1 (by norm_num)⟩

/-- C8: for every `EncodeProgress` value, both backends' `EstimatedMB`
equals the spec's description: 0 when percent is 0 (whatever the current
size), otherwise encoded-MB divided by percent/100, rounded to 1 decimal. -/
theorem C8_estimatedMB_matches_spec (e : EncodeProgress) :
    handbrake.EstimatedMB e = specEstimatedMB e ∧
    ffmpeg.EstimatedMB e = specEstimatedMB e := by
  constructor
  · unfold handbrake.EstimatedMB handbrake.EncodedMB handbrake.round specEstimatedMB
    split
    · rfl
    · norm_num [zpow_one]
  · unfold ffmpeg.EstimatedMB ffmpeg.EncodedMB ffmpeg.round specEstimatedMB
    split
    · rfl
    · norm_num [zpow_one]

theorem iterLinesAux_eq (bytes : List Char) : ∀ cur,
    iterLinesAux cur bytes =
      ((((cur ++ (splitRawP bytes).1) :: (splitRawP bytes).2).filter
        (fun l => !l.isEmpty)).map String.mk) := by
  induction bytes with
  | nil =>
    intro cur
    by_cases h : cur.isEmpty <;>
      simp [iterLinesAux, splitRawP, List.filter, h]
  | cons c rest ih =>
    intro cur
    have ihn := ih []
    rw [List.nil_append] at ihn
    by_cases h : isTerm c
    · by_cases hc : cur.isEmpty
      · have hc' : cur = [] := List.isEmpty_iff.mp hc
        subst hc'
        simp only [iterLinesAux, splitRawP, h, if_true, List.isEmpty_nil, ite_true,
          List.nil_append]
        rw [ihn]
        simp [List.filter]
      · simp only [iterLinesAux, splitRawP, h, if_true, hc, ite_false]
        rw [ihn]
        simp [List.filter, hc]
    · simp only [iterLinesAux, splitRawP, h, Bool.false_eq_true, if_false, ite_false]
      rw [ih (cur ++ [c])]
      simp

/-- C2: the line/token reader yields exactly the result of splitting the
stream's bytes on every '\r' and '\n' and discarding empty segments,
including a final non-terminated partial line. -/
theorem C2_iterLines_eq_split (bytes : List Char) :
    iterLines bytes = specTokens bytes := by
  unfold iterLines specTokens
  simpa using iterLinesAux_eq bytes []

theorem expectLit_suffix {lit s r : List Char} (h : expectLit lit s = some r) : r <:+ s := by
  unfold expectLit at h
  split at h
  · cases h; exact List.drop_suffix _ _
  · cases h

theorem munch1_suffix {p : Char → Bool} {s t r : List Char}
    (h : munch1 p s = some (t, r)) : r <:+ s := by
  unfold munch1 at h
  split at h
  · cases h
  · cases h; exact List.dropWhile_suffix p

theorem munch1_token {p : Char → Bool} {s t r : List Char}
    (h : munch1 p s = some (t, r)) : ∀ c ∈ t, p c := by
  unfold munch1 at h
  split at h
  · cases h
  · cases h; exact fun c hc => List.mem_takeWhile_imp hc

theorem leadsWith_mem : ∀ (lit s : List Char), leadsWith lit s = true → ∀ c ∈ lit, c ∈ s
  | [], _, _, c, hc => absurd hc (List.not_mem_nil c)
  | a :: t, [], h, _, _ => by simp [leadsWith] at h
  | a :: t, b :: u, h, c, hc => by
    simp only [leadsWith, Bool.and_eq_true, decide_eq_true_eq] at h
    rcases List.mem_cons.mp hc with rfl | hc2
    · exact h.1 ▸ List.mem_cons_self _ _
    · exact List.mem_cons_of_mem _ (leadsWith_mem t u h.2 c hc2)

theorem expectLit_mem {lit s r : List Char} (h : expectLit lit s = some r)
    {c : Char} (hc : c ∈ lit) : c ∈ s := by
  unfold expectLit at h
  split at h
  · rename_i hl
    exact leadsWith_mem lit s hl c hc
  · cases h

/-- A successful anchored match contains a '%' and its percent capture is
made of digit/dot characters only. -/
theorem matchAt_props {s pct fps eta : List Char}
    (h : matchAt s = some (pct, fps, eta)) :
    '%' ∈ s ∧ ∀ c ∈ pct, isDigitDot c := by
  unfold matchAt at h
  simp only [bind, Option.bind_eq_some] at h
  obtain ⟨s1, h1, h⟩ := h
  obtain ⟨⟨t1, s2⟩, h2, h⟩ := h
  obtain ⟨s3, h3, h⟩ := h
  obtain ⟨⟨t2, s4⟩, h4, h⟩ := h
  obtain ⟨s5, h5, h⟩ := h
  obtain ⟨⟨pct0, s6⟩, h6, h⟩ := h
  obtain ⟨s7, h7, h⟩ := h
  have hpmem : '%' ∈ s6 := expectLit_mem h7 (by decide)
  have hs : s6 <:+ s :=
    ((((munch1_suffix h6).trans (expectLit_suffix h5)).trans
      (munch1_suffix h4)).trans (expectLit_suffix h3)).trans
      ((munch1_suffix h2).trans (expectLit_suffix h1))
  refine ⟨hs.mem hpmem, ?_⟩
  have hpct : pct0 = pct := by
    cases hopt : matchOpt s7 with
    | none => rw [hopt] at h; cases h; rfl
    | some r => rw [hopt] at h; cases h; rfl
  exact hpct ▸ munch1_token h6

theorem findMatch_props : ∀ {s pct fps eta : List Char},
    findMatch s = some (pct, fps, eta) →
    '%' ∈ s ∧ ∀ c ∈ pct, isDigitDot c
  | [], _, _, _, h => by simp [findMatch] at h
  | c :: rest, pct, fps, eta, h => by
    unfold findMatch at h
    cases hm : matchAt (c :: rest) with
    | some r =>
      rw [hm] at h
      cases h
      exact matchAt_props hm
    | none =>
      rw [hm] at h
      have ih := findMatch_props h
      exact ⟨List.mem_cons_of_mem _ ih.1, ih.2⟩

/-- A line without a '%' character never matches the progress regex. -/
theorem parseProgress_not_matched {line : String} {statSize : Option ℤ}
    (h : '%' ∉ line.data) :
    parseProgress line statSize = (default, false) := by
  unfold parseProgress
  cases hm : findMatch line.data with
  | none => rfl
  | some r =>
    obtain ⟨pct, fps, eta⟩ := r
    exact absurd (findMatch_props hm).1 h

/-- C4: feeding the line
"Encoding: task 1 of 1, 42.5 % (7.3 fps, avg 6.9 fps, ETA 00h01m30s)"
to the variant-A extractor returns matched and a snapshot with percent
42.5, average fps 6.9 and ETA 1m30s (90e9 ns). -/
theorem C4_parseProgress_example :
    parseProgress "Encoding: task 1 of 1, 42.5 % (7.3 fps, avg 6.9 fps, ETA 00h01m30s)" none =
      ({ Percent := 42.5, FPSAvg := 6.9, ETA := 90000000000, CurrentSize := 0 }, true) := by
  have hm : findMatch "Encoding: task 1 of 1, 42.5 % (7.3 fps, avg 6.9 fps, ETA 00h01m30s)".data =
      some ("42.5".data, "6.9".data, "00h01m30s".data) := by decide
  have hp : goParseFloat "42.5".data = some (85/2) := by with_unfolding_all decide
  have hf : goParseFloat "6.9".data = some (69/10) := by with_unfolding_all decide
  have he : goParseDuration (goTrimSpace "00h01m30s".data) = some 90000000000 := by decide
  have hr : goRound (425 : ℚ) = 425 := by
    rw [show (425 : ℚ) = ((425 : ℤ) : ℚ) by norm_num, goRound_intCast]
  unfold parseProgress
  rw [hm]
  simp only [hp, hf, he, Option.getD_some]
  norm_num [hr]

/-- C5: parse failures in the variant-A extractor are absorbed, for every
input line: a line with no '%' marker is reported unmatched with a zero
snapshot, and every line the progress pattern matches is reported matched,
with each unparsable field defaulted to zero rather than raised as an
error — an unparsable percent capture yields Percent 0, an unparsable
average-speed capture yields FPSAvg 0, and a malformed ETA capture yields
ETA 0. -/
theorem C5_parse_failures_absorbed :
    (∀ (line : String) (statSize : Option ℤ), '%' ∉ line.data →
        parseProgress line statSize =
          ({ Percent := 0, FPSAvg := 0, ETA := 0, CurrentSize := 0 }, false)) ∧
    (∀ (line : String) (statSize : Option ℤ) (pctS fpsS etaS : List Char),
        findMatch line.data = some (pctS, fpsS, etaS) →
        (parseProgress line statSize).2 = true ∧
        (goParseFloat pctS = none → (parseProgress line statSize).1.Percent = 0) ∧
        (goParseFloat fpsS = none → (parseProgress line statSize).1.FPSAvg = 0) ∧
        (goParseDuration (goTrimSpace etaS) = none →
          (parseProgress line statSize).1.ETA = 0)) := by
  constructor
  · exact fun line statSize h => parseProgress_not_matched h
  · intro line statSize pctS fpsS etaS hm
    unfold parseProgress
    rw [hm]
    dsimp only
    refine ⟨rfl, ?_, ?_, ?_⟩
    · intro hp
      rw [hp]
      simp only [Option.getD_none]
      rw [show ((0 : ℚ) * 10) = ((0 : ℤ) : ℚ) by norm_num, goRound_intCast]
      norm_num
    · intro hf
      by_cases he : fpsS.isEmpty
      · simp [he]
      · simp [he, hf]
    · intro hd
      by_cases he : fpsS.isEmpty
      · simp [he]
      · simp [he, hd]

theorem C5_parse_failures_absorbed_witness :
    ('%' ∉ "hello world".data ∧
      parseProgress "hello world" (some 7) =
        ({ Percent := 0, FPSAvg := 0, ETA := 0, CurrentSize := 0 }, false)) ∧
    (findMatch "Encoding: task 1 of 1, 1.2.3 % (7.3 fps, avg 6..9 fps, ETA zzz)".data =
        some ("1.2.3".data, "6..9".data, "zzz".data) ∧
      (parseProgress "Encoding: task 1 of 1, 1.2.3 % (7.3 fps, avg 6..9 fps, ETA zzz)" none).2 =
        true ∧
      (parseProgress "Encoding: task 1 of 1, 1.2.3 % (7.3 fps, avg 6..9 fps, ETA zzz)"
          none).1.Percent = 0 ∧
      (parseProgress "Encoding: task 1 of 1, 1.2.3 % (7.3 fps, avg 6..9 fps, ETA zzz)"
          none).1.FPSAvg = 0 ∧
      (parseProgress "Encoding: task 1 of 1, 1.2.3 % (7.3 fps, avg 6..9 fps, ETA zzz)"
          none).1.ETA = 0) :=
  ⟨⟨by decide, C5_parse_failures_absorbed.1 "hello world" (some 7) (by decide)⟩,
    by decide,
    (C5_parse_failures_absorbed.2 "Encoding: task 1 of 1, 1.2.3 % (7.3 fps, avg 6..9 fps, ETA zzz)"
      none "1.2.3".data "6..9".data "zzz".data (by decide)).1,
    (C5_parse_failures_absorbed.2 "Encoding: task 1 of 1, 1.2.3 % (7.3 fps, avg 6..9 fps, ETA zzz)"
      none "1.2.3".data "6..9".data "zzz".data (by decide)).2.1 (by decide),
    (C5_parse_failures_absorbed.2 "Encoding: task 1 of 1, 1.2.3 % (7.3 fps, avg 6..9 fps, ETA zzz)"
      none "1.2.3".data "6..9".data "zzz".data (by decide)).2.2.1 (by decide),
    (C5_parse_failures_absorbed.2 "Encoding: task 1 of 1, 1.2.3 % (7.3 fps, avg 6..9 fps, ETA zzz)"
      none "1.2.3".data "6..9".data "zzz".data (by decide)).2.2.2 (by decide)⟩

theorem wrap64_eq_self {n : ℤ} (h1 : -(2 ^ 63) ≤ n) (h2 : n < 2 ^ 63) : wrap64 n = n := by
  unfold wrap64
  omega

theorem ffround2 (x : ℚ) : ffmpeg.round x 2 = goRound (x * 100) / 100 := by
  unfold ffmpeg.round
  rw [if_neg (by norm_num)]
  norm_num [show ((2:ℤ)) = ((2:ℕ):ℤ) from rfl, zpow_natCast]

theorem goRound_nonneg {q : ℚ} (h : 0 ≤ q) : 0 ≤ goRound q := by
  unfold goRound
  rw [if_pos h]
  have : (0 : ℤ) ≤ ⌊q + 1/2⌋ := Int.le_floor.mpr (by push_cast; linarith)
  exact_mod_cast this

theorem goRound_le_int {q : ℚ} {B : ℤ} (h0 : 0 ≤ q) (h : q ≤ (B : ℚ)) :
    goRound q ≤ (B : ℚ) := by
  unfold goRound
  rw [if_pos h0]
  have h1 : ⌊q + 1/2⌋ ≤ ⌊(B : ℚ) + 1/2⌋ := Int.floor_le_floor (by linarith)
  rw [Int.floor_int_add, show ⌊(1 : ℚ)/2⌋ = 0 by norm_num, add_zero] at h1
  exact_mod_cast h1

/-- The clamped 2-decimal rounding of a nonnegative value lies in [0,100]. -/
theorem round2_bounds {x : ℚ} (hx : 0 ≤ x) :
    0 ≤ ffmpeg.round (min 100 x) 2 ∧ ffmpeg.round (min 100 x) 2 ≤ 100 := by
  rw [ffround2]
  have hmin0 : 0 ≤ min 100 x := le_min (by norm_num) hx
  have hmin1 : min 100 x ≤ 100 := min_le_left _ _
  constructor
  · exact div_nonneg (goRound_nonneg (by positivity)) (by norm_num)
  · have h2 : goRound (min 100 x * 100) ≤ ((10000 : ℤ) : ℚ) :=
      goRound_le_int (by positivity) (by push_cast; nlinarith)
    rw [div_le_iff₀ (by norm_num : (0:ℚ) < 100)]
    push_cast at h2
    linarith
theorem stepContinue_cur (now : ℤ) (line : List Char) (st : BState) :
    (stepContinue now line st).cur = st.cur := by
  unfold stepContinue
  split <;> rfl

theorem stepFps_fields (line : List Char) (st : BState) :
    (stepFps line st).cur.FPSAvg = specFpsL st.cur.FPSAvg line ∧
    (stepFps line st).cur.CurrentSize = st.cur.CurrentSize ∧
    (stepFps line st).progressStarted = st.progressStarted ∧
    (stepFps line st).startTime = st.startTime := by
  unfold stepFps specFpsL
  by_cases h : leadsWith "fps=".data line
  · cases hp : goParseFloat (line.drop 4) <;> simp [h, hp]
  · simp [h]

theorem stepSize_fields (line : List Char) (st : BState) :
    (stepSize line st).cur.CurrentSize = specSizeL st.cur.CurrentSize line ∧
    (stepSize line st).cur.FPSAvg = st.cur.FPSAvg ∧
    (stepSize line st).progressStarted = st.progressStarted ∧
    (stepSize line st).startTime = st.startTime := by
  unfold stepSize specSizeL
  by_cases h : leadsWith "total_size=".data line
  · cases hp : goParseInt64 (line.drop 11) <;> simp [h, hp]
  · simp [h]

theorem stepOut_proj (total now : ℤ) (line : List Char) (st : BState)
    (hpos : 0 < total)
    (hov : ∀ v, outValL line = some v → -(2 ^ 63) ≤ 1000 * v ∧ 1000 * v < 2 ^ 63) :
    (stepOut total now line st).1.cur.FPSAvg = st.cur.FPSAvg ∧
    (stepOut total now line st).1.cur.CurrentSize = st.cur.CurrentSize ∧
    (stepOut total now line st).2.map proj =
      (outValL line).map (fun v => (specPct total v, st.cur.FPSAvg, st.cur.CurrentSize)) := by
  unfold stepOut outValL at *
  by_cases hout : leadsWith "out_time_ms=".data line
  · simp only [hout, if_true]
    cases hms : goParseInt64 (line.drop 12) with
    | none => simp
    | some ms =>
      have hrange := hov ms (by simp [hout, hms])
      have hwrap : wrap64 (ms * 1000) = 1000 * ms := by
        rw [mul_comm]
        exact wrap64_eq_self hrange.1 hrange.2
      have hpct : ffmpeg.round
            (min 100 ((wrap64 (ms * 1000) : ℚ) / (total : ℚ) * 100)) 2 =
          specPct total ms := by
        rw [hwrap, ffround2, specPct]
        push_cast
        ring_nf
      simp only [if_pos hpos]
      refine ⟨?_, ?_, ?_⟩
      · split <;> rfl
      · split <;> rfl
      · split <;> simp [proj, hpct]
  · simp [hout]

theorem bStep_proj (total now : ℤ) (st : BState) (raw : String)
    (hpos : 0 < total)
    (hov : ∀ v, outTimeVal raw = some v → -(2 ^ 63) ≤ 1000 * v ∧ 1000 * v < 2 ^ 63) :
    (bStep total now st raw).1.cur.FPSAvg = specFps st.cur.FPSAvg raw ∧
    (bStep total now st raw).1.cur.CurrentSize = specSize st.cur.CurrentSize raw ∧
    (bStep total now st raw).2.map proj =
      (outTimeVal raw).map
        (fun v => (specPct total v, specFps st.cur.FPSAvg raw, specSize st.cur.CurrentSize raw)) := by
  have h1 := stepContinue_cur now (goTrimSpace raw.data) st
  have h2 := stepFps_fields (goTrimSpace raw.data) (stepContinue now (goTrimSpace raw.data) st)
  have h3 := stepSize_fields (goTrimSpace raw.data)
    (stepFps (goTrimSpace raw.data) (stepContinue now (goTrimSpace raw.data) st))
  have h4 := stepOut_proj total now (goTrimSpace raw.data)
    (stepSize (goTrimSpace raw.data)
      (stepFps (goTrimSpace raw.data) (stepContinue now (goTrimSpace raw.data) st)))
    hpos hov
  unfold bStep
  unfold outTimeVal specFps specSize
  refine ⟨?_, ?_, ?_⟩
  · rw [h4.1, h3.2.1, h2.1, h1]
  · rw [h4.2.1, h3.1, h2.2.1, h1]
  · rw [h4.2.2]
    have hfps : (stepSize (goTrimSpace raw.data)
        (stepFps (goTrimSpace raw.data) (stepContinue now (goTrimSpace raw.data) st))).cur.FPSAvg =
        specFpsL st.cur.FPSAvg (goTrimSpace raw.data) := by
      rw [h3.2.1, h2.1, h1]
    have hsize : (stepSize (goTrimSpace raw.data)
        (stepFps (goTrimSpace raw.data) (stepContinue now (goTrimSpace raw.data) st))).cur.CurrentSize =
        specSizeL st.cur.CurrentSize (goTrimSpace raw.data) := by
      rw [h3.1, h2.2.1, h1]
    rw [hfps, hsize]

theorem bStep_zero (total now : ℤ) (st : BState) (raw : String) (h : ¬ 0 < total) :
    (bStep total now st raw).2 = none := by
  unfold bStep stepOut
  by_cases hout : leadsWith "out_time_ms=".data (goTrimSpace raw.data)
  · simp only [hout, if_true]
    cases hms : goParseInt64 ((goTrimSpace raw.data).drop 12) with
    | none => rfl
    | some ms => simp [h]
  · simp [hout]

theorem iterProgressAux_total_zero (total : ℤ) (clock : ℕ → ℤ) (h : ¬ 0 < total) :
    ∀ (ls : List String) (i : ℕ) (st : BState), iterProgressAux total clock i st ls = []
  | [], _, _ => rfl
  | l :: ls, i, st => by
    unfold iterProgressAux
    rcases hb : bStep total (clock i) st l with ⟨st2, o⟩
    have ho : o = none := by
      have := bStep_zero total (clock i) st l h
      rw [hb] at this
      exact this
    subst ho
    simpa using iterProgressAux_total_zero total clock h ls (i + 1) st2

theorem noOverflowB_head {l : String} {ls : List String}
    (h : noOverflowB (l :: ls) = true) :
    (∀ v, outTimeVal l = some v → -(2 ^ 63) ≤ 1000 * v ∧ 1000 * v < 2 ^ 63) ∧
      noOverflowB ls = true := by
  unfold noOverflowB at h ⊢
  rw [List.all_cons, Bool.and_eq_true] at h
  refine ⟨?_, h.2⟩
  intro v hv
  have h1 := h.1
  rw [hv] at h1
  simp at h1
  exact ⟨h1.1, h1.2⟩

theorem iterProgressAux_proj (total : ℤ) (clock : ℕ → ℤ) (hpos : 0 < total) :
    ∀ (ls : List String) (i : ℕ) (st : BState), noOverflowB ls = true →
      (iterProgressAux total clock i st ls).map proj =
        specSnapshotsAux total st.cur.FPSAvg st.cur.CurrentSize ls
  | [], _, _, _ => rfl
  | l :: ls, i, st, hov => by
    obtain ⟨hhead, htail⟩ := noOverflowB_head hov
    have hp := bStep_proj total (clock i) st l hpos hhead
    unfold iterProgressAux
    rcases hb : bStep total (clock i) st l with ⟨st2, o⟩
    rw [hb] at hp
    unfold specSnapshotsAux
    cases ho : outTimeVal l with
    | none =>
      rw [ho] at hp
      simp only [Option.map_none] at hp
      have ho2 : o = none := Option.map_eq_none.mp hp.2.2
      subst ho2
      simp only []
      rw [iterProgressAux_proj total clock hpos ls (i + 1) st2 htail]
      rw [hp.1, hp.2.1]
    | some v =>
      rw [ho] at hp
      simp only [Option.map_some] at hp
      obtain ⟨p, hop, hproj⟩ := Option.map_eq_some.mp hp.2.2
      subst hop
      simp only []
      rw [List.map_cons, iterProgressAux_proj total clock hpos ls (i + 1) st2 htail]
      rw [hp.1, hp.2.1, hproj]

/-- C1 (amended): the variant-B extractor emits no snapshot at total
duration 0, for any stream; at positive total duration it emits exactly one
snapshot per `out_time_ms=` line whose value parses as a 64-bit integer
(a line with an unparseable value emits nothing), carrying
percent = min(100, out_time/total*100) rounded to 2 decimals together with
the latest speed and size seen so far (stated for streams whose out_time
values do not overflow int64 when scaled to nanoseconds); in particular,
with total 100s, feeding progress=continue then out_time_ms=50000000
yields exactly one snapshot with percent 50. -/
theorem C1_iterProgress_amended :
    (∀ (lines : List String) (clock : ℕ → ℤ), iterProgress lines 0 clock = []) ∧
    (∀ (lines : List String) (total : ℤ) (clock : ℕ → ℤ),
        0 < total → noOverflowB lines = true →
        (iterProgress lines total clock).map proj = specSnapshots total lines) ∧
    (∀ clock : ℕ → ℤ, (iterProgress ["progress=continue", "out_time_ms=50000000"]
        (100 * 10 ^ 9) clock).map (fun p => p.Percent) = [50]) := by
  refine ⟨?_, ?_, ?_⟩
  · intro lines clock
    exact iterProgressAux_total_zero 0 clock (by norm_num) lines 0 default
  · intro lines total clock hpos hov
    exact iterProgressAux_proj total clock hpos lines 0 default hov
  · intro clock
    have h := iterProgressAux_proj (100 * 10 ^ 9) clock (by norm_num)
      ["progress=continue", "out_time_ms=50000000"] 0 default (by decide)
    have hspec : specSnapshotsAux (100 * 10 ^ 9) (0 : ℚ) (0 : ℤ)
        ["progress=continue", "out_time_ms=50000000"] = [(50, 0, 0)] := by
      with_unfolding_all decide
    have hcomp : (iterProgress ["progress=continue", "out_time_ms=50000000"]
          (100 * 10 ^ 9) clock).map (fun p => p.Percent) =
        ((iterProgress ["progress=continue", "out_time_ms=50000000"]
          (100 * 10 ^ 9) clock).map proj).map Prod.fst := by
      rw [List.map_map]
      rfl
    rw [hcomp]
    unfold iterProgress at h ⊢
    rw [h]
    rw [show (default : BState).cur.FPSAvg = (0 : ℚ) from rfl,
      show (default : BState).cur.CurrentSize = (0 : ℤ) from rfl, hspec]
    rfl

/-- C1 (counterexample): with positive total duration, an `out_time_ms=`
line whose value does not parse emits no snapshot, although the claim as
stated promises exactly one snapshot per `out_time_ms=` line observed. -/
theorem C1_counterexample :
    iterProgress ["out_time_ms=oops"] (100 * 10 ^ 9) (fun _ => 0) = [] ∧
    (["out_time_ms=oops"].countP
      (fun l => leadsWith "out_time_ms=".data (goTrimSpace l.data))) = 1 := by
  constructor
  · decide
  · decide

theorem stepOut_emit {total now : ℤ} {line : List Char} {st : BState}
    {st2 : BState} {p : EncodeProgress}
    (h : stepOut total now line st = (st2, some p)) :
    ∃ v, outValL line = some v ∧
      p.Percent = ffmpeg.round (min 100 ((wrap64 (v * 1000) : ℚ) / (total : ℚ) * 100)) 2 := by
  unfold stepOut outValL at *
  by_cases hout : leadsWith "out_time_ms=".data line
  · rw [if_pos hout] at h ⊢
    cases hms : goParseInt64 (line.drop 12) with
    | none => rw [hms] at h; cases h
    | some ms =>
      rw [hms] at h
      dsimp only at h
      by_cases hpos : 0 < total
      · rw [if_pos hpos] at h
        refine ⟨ms, rfl, ?_⟩
        have hp := congrArg Prod.snd h
        simp only [] at hp
        rw [Option.some_inj] at hp
        subst hp
        split <;> rfl
      · rw [if_neg hpos] at h
        simp at h
  · rw [if_neg hout] at h
    simp at h

theorem bStep_emit {total now : ℤ} {st : BState} {raw : String}
    {st2 : BState} {p : EncodeProgress}
    (h : bStep total now st raw = (st2, some p)) :
    ∃ v, outTimeVal raw = some v ∧
      p.Percent = ffmpeg.round (min 100 ((wrap64 (v * 1000) : ℚ) / (total : ℚ) * 100)) 2 :=
  stepOut_emit h

theorem outTimesOkB_head {l : String} {ls : List String}
    (h : outTimesOkB (l :: ls) = true) :
    (∀ v, outTimeVal l = some v → 0 ≤ v ∧ 1000 * v < 2 ^ 63) ∧
      outTimesOkB ls = true := by
  unfold outTimesOkB at h ⊢
  rw [List.all_cons, Bool.and_eq_true] at h
  refine ⟨?_, h.2⟩
  intro v hv
  have h1 := h.1
  rw [hv] at h1
  simp at h1
  exact ⟨h1.1, h1.2⟩

theorem iterProgressAux_percent_bounds (total : ℤ) (clock : ℕ → ℤ) (hpos : 0 < total) :
    ∀ (ls : List String) (i : ℕ) (st : BState), outTimesOkB ls = true →
      ∀ p ∈ iterProgressAux total clock i st ls, 0 ≤ p.Percent ∧ p.Percent ≤ 100
  | [], _, _, _, p, hp => absurd hp (List.not_mem_nil p)
  | l :: ls, i, st, hok, p, hp => by
    obtain ⟨hhead, htail⟩ := outTimesOkB_head hok
    unfold iterProgressAux at hp
    rcases hb : bStep total (clock i) st l with ⟨st2, o⟩
    rw [hb] at hp
    cases o with
    | none =>
      exact iterProgressAux_percent_bounds total clock hpos ls (i + 1) st2 htail p hp
    | some q =>
      rcases List.mem_cons.mp hp with rfl | hp2
      · obtain ⟨v, hv, hpct⟩ := bStep_emit hb
        have hr := hhead v hv
        have hwrap : wrap64 (v * 1000) = 1000 * v := by
          rw [mul_comm]
          exact wrap64_eq_self (by linarith [hr.1]) hr.2
        have hx : (0 : ℚ) ≤ (wrap64 (v * 1000) : ℚ) / (total : ℚ) * 100 := by
          rw [hwrap]
          apply mul_nonneg _ (by norm_num)
          apply div_nonneg
          · exact_mod_cast mul_nonneg (by norm_num) hr.1
          · exact_mod_cast le_of_lt hpos
        rw [hpct]
        exact round2_bounds hx
      · exact iterProgressAux_percent_bounds total clock hpos ls (i + 1) st2 htail p hp2

theorem parseExpPart_nonneg {m : ℚ} (hm : 0 ≤ m) {s : List Char} {q : ℚ}
    (h : parseExpPart m s = some q) : 0 ≤ q := by
  cases s with
  | nil =>
    simp only [parseExpPart, Option.some_inj] at h
    exact h ▸ hm
  | cons e r =>
    simp only [parseExpPart] at h
    split at h
    · split at h <;> split at h <;> cases h <;>
        exact mul_nonneg hm (zpow_nonneg (by norm_num) _)
    · cases h

theorem parseUnsignedFloat_nonneg {s : List Char} {q : ℚ}
    (h : parseUnsignedFloat s = some q) : 0 ≤ q := by
  unfold parseUnsignedFloat at h
  dsimp only at h
  split at h
  · split at h
    · cases h
    · refine parseExpPart_nonneg ?_ h
      apply add_nonneg (by positivity)
      apply div_nonneg (by positivity) (by positivity)
  · split at h
    · cases h
    · exact parseExpPart_nonneg (by positivity) h

theorem goParseFloat_nonneg_digitDot {s : List Char} {q : ℚ}
    (hall : ∀ c ∈ s, isDigitDot c) (h : goParseFloat s = some q) : 0 ≤ q := by
  unfold goParseFloat at h
  by_cases h1 : s.head? = some '+'
  · exfalso
    cases s with
    | nil => simp at h1
    | cons c t =>
      simp only [List.head?_cons, Option.some_inj] at h1
      subst h1
      have := hall '+' (List.mem_cons_self _ _)
      simp [isDigitDot] at this
  · by_cases h2 : s.head? = some '-'
    · exfalso
      cases s with
      | nil => simp at h2
      | cons c t =>
        simp only [List.head?_cons, Option.some_inj] at h2
        subst h2
        have := hall '-' (List.mem_cons_self _ _)
        simp [isDigitDot] at this
    · rw [if_neg h1, if_neg h2] at h
      exact parseUnsignedFloat_nonneg h

theorem parseProgress_percent_bounds (line : String) (statSize : Option ℤ)
    (hle : ∀ q, reportedPercent line = some q → q ≤ 100) :
    0 ≤ (parseProgress line statSize).1.Percent ∧
    (parseProgress line statSize).1.Percent ≤ 100 := by
  unfold parseProgress reportedPercent at *
  cases hm : findMatch line.data with
  | none =>
    norm_num [show (default : EncodeProgress).Percent = 0 from rfl]
  | some r =>
    obtain ⟨pct, fps, eta⟩ := r
    rw [hm] at hle
    have hq := hle ((goParseFloat pct).getD 0) rfl
    have hq0 : 0 ≤ (goParseFloat pct).getD 0 := by
      cases hp : goParseFloat pct with
      | none => simp
      | some v =>
        simp only [Option.getD_some]
        exact goParseFloat_nonneg_digitDot (findMatch_props hm).2 hp
    dsimp only
    constructor
    · exact div_nonneg (goRound_nonneg (by positivity)) (by norm_num)
    · have h1000 : goRound ((goParseFloat pct).getD 0 * 10) ≤ ((1000 : ℤ) : ℚ) :=
        goRound_le_int (by positivity) (by push_cast; nlinarith)
      rw [div_le_iff₀ (by norm_num : (0:ℚ) < 10)]
      push_cast at h1000
      linarith

theorem C1_iterProgress_amended_witness :
    noOverflowB ["progress=continue", "fps=12.5", "out_time_ms=50000000"] = true ∧
    (iterProgress ["progress=continue", "fps=12.5", "out_time_ms=50000000"]
        (100 * 10 ^ 9) (fun _ => 0)).map proj =
      specSnapshots (100 * 10 ^ 9) ["progress=continue", "fps=12.5", "out_time_ms=50000000"] :=
  ⟨by decide,
    C1_iterProgress_amended.2.1 ["progress=continue", "fps=12.5", "out_time_ms=50000000"]
      (100 * 10 ^ 9) (fun _ => 0) (by norm_num) (by decide)⟩

/-- C3 (amended): every snapshot's percent is in [0,100] provided the
tool-reported values are in range: for variant A, whenever the reported
percent value is at most 100 (it is always nonnegative, being parsed from
a digits-and-dots capture); for variant B, whenever every out_time value is
a nonnegative microsecond count without nanosecond int64 overflow (the
min(100, ·) clamp then bounds it above). -/
theorem C3_percent_range :
    (∀ (line : String) (statSize : Option ℤ),
        (∀ q, reportedPercent line = some q → q ≤ 100) →
        0 ≤ (parseProgress line statSize).1.Percent ∧
          (parseProgress line statSize).1.Percent ≤ 100) ∧
    (∀ (lines : List String) (total : ℤ) (clock : ℕ → ℤ),
        0 < total → outTimesOkB lines = true →
        ∀ p ∈ iterProgress lines total clock, 0 ≤ p.Percent ∧ p.Percent ≤ 100) := by
  constructor
  · exact parseProgress_percent_bounds
  · intro lines total clock hpos hok p hp
    exact iterProgressAux_percent_bounds total clock hpos lines 0 default hok p hp

/-- C3 (counterexample): the variant-A extractor does not clamp: the line
"Encoding: task 1 of 1, 250 %" matches and produces percent 250 > 100. -/
theorem C3_counterexample :
    (parseProgress "Encoding: task 1 of 1, 250 %" none).2 = true ∧
    (parseProgress "Encoding: task 1 of 1, 250 %" none).1.Percent = 250 ∧
    ¬ ((parseProgress "Encoding: task 1 of 1, 250 %" none).1.Percent ≤ 100) := by
  have hm : findMatch "Encoding: task 1 of 1, 250 %".data = some ("250".data, [], []) := by
    decide
  have hp : goParseFloat "250".data = some 250 := by with_unfolding_all decide
  have hr : goRound (2500 : ℚ) = 2500 := by
    rw [show (2500 : ℚ) = ((2500 : ℤ) : ℚ) by norm_num, goRound_intCast]
  unfold parseProgress
  rw [hm]
  norm_num [hp, hr]

theorem C3_percent_range_witness :
    (0 ≤ (parseProgress "Encoding: task 1 of 1, 42.5 %" none).1.Percent ∧
      (parseProgress "Encoding: task 1 of 1, 42.5 %" none).1.Percent ≤ 100) ∧
    ∀ p ∈ iterProgress ["out_time_ms=50000000"] (100 * 10 ^ 9) (fun _ => 0),
      0 ≤ p.Percent ∧ p.Percent ≤ 100 := by
  constructor
  · apply C3_percent_range.1 "Encoding: task 1 of 1, 42.5 %" none
    intro q hq
    have hfm : findMatch "Encoding: task 1 of 1, 42.5 %".data =
        some ("42.5".data, [], []) := by decide
    have hpf : goParseFloat "42.5".data = some (85/2) := by with_unfolding_all decide
    have hrep : reportedPercent "Encoding: task 1 of 1, 42.5 %" = some (85/2) := by
      unfold reportedPercent
      rw [hfm]
      simp [hpf]
    rw [hrep, Option.some_inj] at hq
    rw [← hq]
    norm_num
  · exact C3_percent_range.2 ["out_time_ms=50000000"] (100 * 10 ^ 9) (fun _ => 0)
      (by norm_num) (by decide)

theorem digitChar_isDigit {k : ℕ} (h : k < 10) : (digitChar k).isDigit = true := by
  interval_cases k <;> decide

theorem natCharsAux_digits : ∀ (fuel n : ℕ) (acc : List Char),
    (∀ c ∈ acc, c.isDigit = true) → ∀ c ∈ natCharsAux fuel n acc, c.isDigit = true
  | 0, _, acc, hacc => hacc
  | fuel + 1, n, acc, hacc => by
    unfold natCharsAux
    have hd : ∀ c ∈ digitChar (n % 10) :: acc, c.isDigit = true := by
      intro c hc
      rcases List.mem_cons.mp hc with rfl | hc2
      · exact digitChar_isDigit (Nat.mod_lt _ (by norm_num))
      · exact hacc c hc2
    split
    · exact hd
    · exact natCharsAux_digits fuel (n / 10) _ hd

theorem natChars_digits (n : ℕ) : ∀ c ∈ natChars n, c.isDigit = true :=
  natCharsAux_digits (n + 1) n [] (by intro c hc; cases hc)

theorem itoa_numLike (i : ℤ) : numLike (itoa i) = true := by
  unfold itoa numLike
  split
  · rw [List.all_eq_true]
    intro c hc
    rcases List.mem_cons.mp hc with rfl | hc2
    · decide
    · simp [natChars_digits _ c hc2]
  · rw [List.all_eq_true]
    intro c hc
    simp [natChars_digits _ c hc]

theorem numLike_ne {s t : String} (hs : numLike s = true) (ht : numLike t = false) :
    s ≠ t := by
  intro he
  rw [he, ht] at hs
  cases hs

theorem ne_of_head {s t : String} {c d : Char} (hs : s.data.head? = some c)
    (ht : t.data.head? = some d) (h : c ≠ d) : s ≠ t := by
  intro he
  rw [he, ht] at hs
  rw [Option.some_inj] at hs
  exact h hs.symm

theorem data_append (a b : String) : (a ++ b).data = a.data ++ b.data := rfl

theorem durStr_head (t : ℤ) : (durStr t).data.head? = some 'd' := rfl

theorem titleArg_head (s : String) : (titleArg s).data.head? = some 't' := rfl

theorem scaleWH_head (w h : ℤ) : (scaleWH w h).data.head? = some 's' := rfl

theorem scaleW_head (w : ℤ) : (scaleW w).data.head? = some 's' := rfl

theorem scaleH_head (h : ℤ) : (scaleH h).data.head? = some 's' := rfl

theorem insertBeforeI_append (tok val : String) :
    ∀ (l₁ l₂ : List String),
      insertBeforeI tok val (l₁ ++ l₂) =
        insertBeforeI tok val l₁ ++ insertBeforeI tok val l₂
  | [], l₂ => rfl
  | a :: l₁, l₂ => by
    by_cases h : a = "-i"
    · simp only [List.cons_append, insertBeforeI, if_pos h, List.append_eq,
        insertBeforeI_append tok val l₁ l₂]
    · simp only [List.cons_append, insertBeforeI, if_neg h, List.append_eq,
        insertBeforeI_append tok val l₁ l₂]

theorem mem_insertBeforeI {x tok val : String} :
    ∀ {l : List String}, x ∈ insertBeforeI tok val l → x ∈ l ∨ x = tok ∨ x = val
  | [], h => by cases h
  | a :: l, h => by
    unfold insertBeforeI at h
    split at h
    · rcases List.mem_cons.mp h with rfl | h2
      · exact Or.inr (Or.inl rfl)
      rcases List.mem_cons.mp h2 with rfl | h3
      · exact Or.inr (Or.inr rfl)
      rcases List.mem_cons.mp h3 with rfl | h4
      · exact Or.inl (List.mem_cons_self _ _)
      · rcases mem_insertBeforeI h4 with h5 | h5
        · exact Or.inl (List.mem_cons_of_mem _ h5)
        · exact Or.inr h5
    · rcases List.mem_cons.mp h with rfl | h2
      · exact Or.inl (List.mem_cons_self _ _)
      · rcases mem_insertBeforeI h2 with h5 | h5
        · exact Or.inl (List.mem_cons_of_mem _ h5)
        · exact Or.inr h5

theorem mem_replaceMain10 {x : String} :
    ∀ {l : List String}, x ∈ replaceMain10 l → x ∈ l ∨ x = "main10"
  | [], h => Or.inl h
  | [a], h => Or.inl h
  | a :: b :: l, h => by
    unfold replaceMain10 at h
    split at h
    · rcases List.mem_cons.mp h with rfl | h2
      · exact Or.inl (List.mem_cons_self _ _)
      rcases List.mem_cons.mp h2 with rfl | h3
      · exact Or.inr rfl
      · exact Or.inl (List.mem_cons_of_mem _ (List.mem_cons_of_mem _ h3))
    · rcases List.mem_cons.mp h with rfl | h2
      · exact Or.inl (List.mem_cons_self _ _)
      · rcases mem_replaceMain10 h2 with h5 | h5
        · exact Or.inl (List.mem_cons_of_mem _ h5)
        · exact Or.inr h5

theorem insertBeforeI_infix_pair (tok val : String) {x y : String} (hy : y ≠ "-i")
    (l₁ l₂ : List String) :
    ∃ m₁ m₂, insertBeforeI tok val (l₁ ++ x :: y :: l₂) = m₁ ++ x :: y :: m₂ := by
  rw [show l₁ ++ x :: y :: l₂ = l₁ ++ [x] ++ (y :: l₂) by simp]
  rw [insertBeforeI_append, insertBeforeI_append]
  have hys : insertBeforeI tok val (y :: l₂) = y :: insertBeforeI tok val l₂ := by
    simp only [insertBeforeI, if_neg hy]
  rw [hys]
  by_cases hx : x = "-i"
  · refine ⟨insertBeforeI tok val l₁ ++ [tok, val], insertBeforeI tok val l₂, ?_⟩
    subst hx
    simp [insertBeforeI]
  · refine ⟨insertBeforeI tok val l₁, insertBeforeI tok val l₂, ?_⟩
    simp [insertBeforeI, hx]

theorem replaceMain10_cons_eq (a : String) (l : List String) :
    replaceMain10 (a :: l) = a :: (replaceMain10 (a :: l)).tail := by
  cases l with
  | nil => rfl
  | cons b t =>
    unfold replaceMain10
    split <;> rfl

theorem replaceMain10_infix_pair {x y : String} (hx : x ≠ "main") (hy : y ≠ "main") :
    ∀ (l₁ l₂ : List String),
      ∃ m₁ m₂, replaceMain10 (l₁ ++ x :: y :: l₂) = m₁ ++ x :: y :: m₂
  | [], l₂ => by
    rw [List.nil_append]
    unfold replaceMain10
    rw [if_neg (by intro hc; exact hy hc.1)]
    have := replaceMain10_cons_eq y l₂
    exact ⟨[], (replaceMain10 (y :: l₂)).tail, by rw [this]; rfl⟩
  | a :: l₁, l₂ => by
    rw [List.cons_append]
    rcases hrest : l₁ ++ x :: y :: l₂ with _ | ⟨b, rest⟩
    · cases l₁ <;> simp at hrest
    · unfold replaceMain10
      split
      · rename_i hcond
        cases l₁ with
        | nil =>
          simp only [List.nil_append] at hrest
          injection hrest with h1 h2
          exact absurd (h1 ▸ hcond.1) hx
        | cons c l₁t =>
          simp only [List.cons_append] at hrest
          injection hrest with h1 h2
          refine ⟨a :: "main10" :: l₁t, l₂, ?_⟩
          rw [← h2]
          simp
      · rw [← hrest]
        obtain ⟨m₁, m₂, hm⟩ := replaceMain10_infix_pair hx hy l₁ l₂
        exact ⟨a :: m₁, m₂, by rw [hm]; rfl⟩

theorem hb_encodeArgs_eq (p : handbrake.EncodeParams) :
    handbrake.encodeArgs p =
      ["HandbrakeCLI", "--format", "av_mp4", "--input", p.InputPath,
       "--output", p.OutputPath, "--optimize", "--encoder",
       (if p.Is10Bit then "vt_h265_10bit" else "vt_h265"),
       "--quality", fmtNoDec p.Quality, "--vfr", "--aencoder", "ac3",
       "--ab", "160", "--non-anamorphic", "--verbose", "1"] ++
      (if 0 < p.FromTime then ["--start-at", durStr p.FromTime] else []) ++
      (if 0 < p.Duration then ["--stop-at", durStr p.Duration] else []) ++
      (if p.Denoise then ["--hqdn3d", "light"] else []) ++
      hbScale p ++ p.ExtraArgs := by
  unfold handbrake.encodeArgs hbScale
  split_ifs <;> simp

theorem ff_encodeArgs_eq (p : ffmpeg.EncodeParams) :
    ffmpeg.encodeArgs p = ffAfterT p ++ p.ExtraArgs := by
  unfold ffmpeg.encodeArgs ffAfterT ffAfterSS ffAfter10 ffPre ffScale ffBase
  split_ifs <;> simp

theorem mem_ffAfter10 {p : ffmpeg.EncodeParams} {x : String} (hx : x ∈ ffAfter10 p) :
    x ∈ ffPre p ∨ x = "main10" := by
  unfold ffAfter10 at hx
  split at hx
  · exact mem_replaceMain10 hx
  · exact Or.inl hx

theorem mem_ffAfterSS {p : ffmpeg.EncodeParams} {x : String} (hx : x ∈ ffAfterSS p) :
    x ∈ ffAfter10 p ∨ x = "-ss" ∨ x = itoa (secondsInt p.FromTime) := by
  unfold ffAfterSS at hx
  split at hx
  · exact mem_insertBeforeI hx
  · exact Or.inl hx

theorem mem_ffAfterT {p : ffmpeg.EncodeParams} {x : String} (hx : x ∈ ffAfterT p) :
    x ∈ ffAfterSS p ∨ x = "-t" ∨ x = itoa (secondsInt p.Duration) := by
  unfold ffAfterT at hx
  split at hx
  · exact mem_insertBeforeI hx
  · exact Or.inl hx

theorem ff_no_scale (p : ffmpeg.EncodeParams) (hW : p.Width = 0) (hH : p.Height = 0)
    (hin : p.InputPath ≠ "-vf") (hout : p.OutputPath ≠ "-vf")
    (hex : "-vf" ∉ p.ExtraArgs) :
    "-vf" ∉ ffmpeg.encodeArgs p := by
  intro hmem
  rw [ff_encodeArgs_eq] at hmem
  rcases List.mem_append.mp hmem with hmem | hmem
  swap
  · exact hex hmem
  rcases mem_ffAfterT hmem with hmem | h | h
  rotate_left
  · exact absurd h (by decide)
  · exact numLike_ne (itoa_numLike _) (by decide) h.symm
  rcases mem_ffAfterSS hmem with hmem | h | h
  rotate_left
  · exact absurd h (by decide)
  · exact numLike_ne (itoa_numLike _) (by decide) h.symm
  rcases mem_ffAfter10 hmem with hmem | h
  swap
  · exact absurd h (by decide)
  unfold ffPre at hmem
  have hscale : ffScale p = [] := by
    unfold ffScale
    rw [hW, hH]
    norm_num
  rw [hscale] at hmem
  simp only [List.append_nil, List.mem_append, List.mem_cons, List.mem_singleton] at hmem
  rcases hmem with hmem | hmem
  · unfold ffBase at hmem
    simp only [List.mem_cons, List.not_mem_nil, or_false] at hmem
    rcases hmem with h|h|h|h|h|h|h|h|h|h|h|h|h|h|h|h|h|h
    all_goals first
      | (exact absurd h (by decide))
      | (exact hin h.symm)
      | (exact numLike_ne (itoa_numLike _) (by decide) h.symm)
      | (exact (ne_of_head (titleArg_head _)
          (show ("-vf" : String).data.head? = some '-' from rfl) (by decide)) h.symm)
  · rcases hmem with h | h
    · exact hout h.symm
    · exact absurd h (List.not_mem_nil _)

theorem hb_no_scale (p : handbrake.EncodeParams) (hW : p.Width = 0) (hH : p.Height = 0)
    (hin1 : p.InputPath ≠ "--width") (hin2 : p.InputPath ≠ "--height")
    (hout1 : p.OutputPath ≠ "--width") (hout2 : p.OutputPath ≠ "--height")
    (hex1 : "--width" ∉ p.ExtraArgs) (hex2 : "--height" ∉ p.ExtraArgs) :
    "--width" ∉ handbrake.encodeArgs p ∧ "--height" ∉ handbrake.encodeArgs p := by
  have hscale : hbScale p = [] := by
    unfold hbScale
    rw [hW, hH]
    norm_num
  have hq1 : "--width" ≠ fmtNoDec p.Quality :=
    Ne.symm (numLike_ne (itoa_numLike _) (by decide))
  have hq2 : "--height" ≠ fmtNoDec p.Quality :=
    Ne.symm (numLike_ne (itoa_numLike _) (by decide))
  have hd1 : ∀ t, "--width" ≠ durStr t :=
    fun t => Ne.symm (ne_of_head (durStr_head t) rfl (by decide))
  have hd2 : ∀ t, "--height" ≠ durStr t :=
    fun t => Ne.symm (ne_of_head (durStr_head t) rfl (by decide))
  constructor <;>
  · intro hmem
    rw [hb_encodeArgs_eq, hscale] at hmem
    split_ifs at hmem <;>
      simp [Ne.symm hin1, Ne.symm hin2, Ne.symm hout1, Ne.symm hout2,
        hex1, hex2, hq1, hq2, hd1, hd2] at hmem

theorem ff_pair_infix (p : ffmpeg.EncodeParams) {filt : String}
    (hfm : filt ≠ "main") (hfi : filt ≠ "-i")
    (hscale : ffScale p = ["-vf", filt]) :
    ∃ m₁ m₂, ffmpeg.encodeArgs p = m₁ ++ "-vf" :: filt :: m₂ := by
  rw [ff_encodeArgs_eq]
  have hpre : ffPre p = ffBase p ++ "-vf" :: filt :: [p.OutputPath] := by
    unfold ffPre
    rw [hscale]
    simp
  have h10 : ∃ m₁ m₂, ffAfter10 p = m₁ ++ "-vf" :: filt :: m₂ := by
    unfold ffAfter10
    split
    · rw [hpre]
      exact replaceMain10_infix_pair (by decide) hfm (ffBase p) [p.OutputPath]
    · exact ⟨ffBase p, [p.OutputPath], hpre⟩
  obtain ⟨a₁, a₂, ha⟩ := h10
  have hss : ∃ m₁ m₂, ffAfterSS p = m₁ ++ "-vf" :: filt :: m₂ := by
    unfold ffAfterSS
    split
    · rw [ha]
      exact insertBeforeI_infix_pair _ _ hfi a₁ a₂
    · exact ⟨a₁, a₂, ha⟩
  obtain ⟨b₁, b₂, hb⟩ := hss
  have ht : ∃ m₁ m₂, ffAfterT p = m₁ ++ "-vf" :: filt :: m₂ := by
    unfold ffAfterT
    split
    · rw [hb]
      exact insertBeforeI_infix_pair _ _ hfi b₁ b₂
    · exact ⟨b₁, b₂, hb⟩
  obtain ⟨c₁, c₂, hc⟩ := ht
  exact ⟨c₁, c₂ ++ p.ExtraArgs, by rw [hc]; simp⟩

theorem hb_width_only (p : handbrake.EncodeParams) (hW : p.Width = 1920) (hH : p.Height = 0)
    (hin : p.InputPath ≠ "--height") (hout : p.OutputPath ≠ "--height")
    (hex : "--height" ∉ p.ExtraArgs) :
    (∃ m₁ m₂, handbrake.encodeArgs p = m₁ ++ "--width" :: "1920" :: m₂) ∧
    "--height" ∉ handbrake.encodeArgs p := by
  have hscale : hbScale p = ["--width", "1920"] := by
    unfold hbScale
    rw [hW, hH]
    norm_num
    rfl
  constructor
  · rw [hb_encodeArgs_eq, hscale]
    exact ⟨(["HandbrakeCLI", "--format", "av_mp4", "--input", p.InputPath,
       "--output", p.OutputPath, "--optimize", "--encoder",
       (if p.Is10Bit then "vt_h265_10bit" else "vt_h265"),
       "--quality", fmtNoDec p.Quality, "--vfr", "--aencoder", "ac3",
       "--ab", "160", "--non-anamorphic", "--verbose", "1"] ++
      (if 0 < p.FromTime then ["--start-at", durStr p.FromTime] else []) ++
      (if 0 < p.Duration then ["--stop-at", durStr p.Duration] else []) ++
      (if p.Denoise then ["--hqdn3d", "light"] else [])), p.ExtraArgs, by simp⟩
  · intro hmem
    have hq2 : "--height" ≠ fmtNoDec p.Quality :=
      Ne.symm (numLike_ne (itoa_numLike _) (by decide))
    have hd2 : ∀ t, "--height" ≠ durStr t :=
      fun t => Ne.symm (ne_of_head (durStr_head t) rfl (by decide))
    rw [hb_encodeArgs_eq, hscale] at hmem
    split_ifs at hmem <;>
      simp [Ne.symm hin, Ne.symm hout, hex, hq2, hd2] at hmem

theorem hb_both (p : handbrake.EncodeParams) (hW : 0 < p.Width) (hH : 0 < p.Height) :
    ∃ m₁ m₂, handbrake.encodeArgs p =
      m₁ ++ "--width" :: itoa p.Width :: "--height" :: itoa p.Height :: m₂ := by
  have hscale : hbScale p = ["--width", itoa p.Width, "--height", itoa p.Height] := by
    unfold hbScale
    rw [if_pos (Or.inl hW), if_pos ⟨hW, hH⟩]
  rw [hb_encodeArgs_eq, hscale]
  exact ⟨(["HandbrakeCLI", "--format", "av_mp4", "--input", p.InputPath,
       "--output", p.OutputPath, "--optimize", "--encoder",
       (if p.Is10Bit then "vt_h265_10bit" else "vt_h265"),
       "--quality", fmtNoDec p.Quality, "--vfr", "--aencoder", "ac3",
       "--ab", "160", "--non-anamorphic", "--verbose", "1"] ++
      (if 0 < p.FromTime then ["--start-at", durStr p.FromTime] else []) ++
      (if 0 < p.Duration then ["--stop-at", durStr p.Duration] else []) ++
      (if p.Denoise then ["--hqdn3d", "light"] else [])), p.ExtraArgs, by simp⟩

/-- C7: the scaling policy of both argument builders: with no dimensions no
scaling token appears anywhere in the vector; with width 1920 only, the
vector carries the proportional-height form (handbrake "--width 1920" with
no "--height"; ffmpeg "-vf scale=1920:-2"); with both positive, both
dimensions appear (ffmpeg with the force_original_aspect_ratio=decrease
qualifier, handbrake with exact --width and --height).  The hypotheses say the
caller-supplied paths and passthrough arguments do not themselves collide
with the scaling tokens. -/
theorem C7_scaling_policy
    (hp : handbrake.EncodeParams) (fp : ffmpeg.EncodeParams)
    (hin1 : hp.InputPath ≠ "--width") (hin2 : hp.InputPath ≠ "--height")
    (hout1 : hp.OutputPath ≠ "--width") (hout2 : hp.OutputPath ≠ "--height")
    (hex1 : "--width" ∉ hp.ExtraArgs) (hex2 : "--height" ∉ hp.ExtraArgs)
    (fin1 : fp.InputPath ≠ "-vf") (fout1 : fp.OutputPath ≠ "-vf")
    (fex1 : "-vf" ∉ fp.ExtraArgs) :
    (hp.Width = 0 → hp.Height = 0 →
      "--width" ∉ handbrake.encodeArgs hp ∧ "--height" ∉ handbrake.encodeArgs hp) ∧
    (fp.Width = 0 → fp.Height = 0 → "-vf" ∉ ffmpeg.encodeArgs fp) ∧
    (hp.Width = 1920 → hp.Height = 0 →
      (∃ m₁ m₂, handbrake.encodeArgs hp = m₁ ++ "--width" :: "1920" :: m₂) ∧
      "--height" ∉ handbrake.encodeArgs hp) ∧
    (fp.Width = 1920 → fp.Height = 0 →
      ∃ m₁ m₂, ffmpeg.encodeArgs fp = m₁ ++ "-vf" :: "scale=1920:-2" :: m₂) ∧
    (0 < hp.Width → 0 < hp.Height →
      ∃ m₁ m₂, handbrake.encodeArgs hp =
        m₁ ++ "--width" :: itoa hp.Width :: "--height" :: itoa hp.Height :: m₂) ∧
    (0 < fp.Width → 0 < fp.Height →
      ∃ m₁ m₂, ffmpeg.encodeArgs fp = m₁ ++ "-vf" :: scaleWH fp.Width fp.Height :: m₂) := by
  refine ⟨?_, ?_, ?_, ?_, ?_, ?_⟩
  · intro hW hH
    exact hb_no_scale hp hW hH hin1 hin2 hout1 hout2 hex1 hex2
  · intro hW hH
    exact ff_no_scale fp hW hH fin1 fout1 fex1
  · intro hW hH
    exact hb_width_only hp hW hH hin2 hout2 hex2
  · intro hW hH
    have hsw : scaleW 1920 = "scale=1920:-2" := by decide
    have hscale : ffScale fp = ["-vf", "scale=1920:-2"] := by
      unfold ffScale
      rw [hW, hH, ← hsw]
      norm_num
    exact ff_pair_infix fp (by decide) (by decide) hscale
  · intro hW hH
    exact hb_both hp hW hH
  · intro hW hH
    have hscale : ffScale fp = ["-vf", scaleWH fp.Width fp.Height] := by
      unfold ffScale
      rw [if_pos (Or.inl hW), if_pos ⟨hW, hH⟩]
    exact ff_pair_infix fp (ne_of_head (scaleWH_head _ _) rfl (by decide))
      (ne_of_head (scaleWH_head _ _) rfl (by decide)) hscale

theorem C7_scaling_policy_witness :
    ((0 : ℤ) < 1280 ∧ (0 : ℤ) < 720) ∧
    ∃ m₁ m₂,
      ffmpeg.encodeArgs ⟨"in.mp4", "out.mp4", 35, true, 0, 0, 1280, 720, []⟩ =
        m₁ ++ "-vf" :: scaleWH 1280 720 :: m₂ :=
  ⟨⟨by norm_num, by norm_num⟩,
    (C7_scaling_policy ⟨"in.mp4", "out.mp4", 35, true, 0, 0, false, 0, 0, []⟩
      ⟨"in.mp4", "out.mp4", 35, true, 0, 0, 1280, 720, []⟩
      (by decide) (by decide) (by decide) (by decide)
      (by simp) (by simp) (by decide) (by decide) (by simp)).2.2.2.2.2
      (by norm_num) (by norm_num)⟩
